import Mathlib

/-!
Verification of the reachability / enrichment core of the `slice` repository.

The Go sources are shallowly embedded:
* `pkg/codeql/callgraph.go` — call-graph construction (`buildCallGraph`),
  reachability classification (`AnalyzeReachability`, `analyzePair`,
  `findPaths`, `findCommonAncestors`, `calculatePathDepths`,
  `deduplicatePaths`, `extractFunctionName`);
* the query enricher (`EnrichResults`): the fan-in that re-orders worker
  results by original index, and the atomic validation statistics;
* the generic worker pool (`WorkerPool.ProcessItems`): index-addressed
  result slots and the first-error-wins accumulation.

Go strings are modelled as `List Char`; Go `int` as `Int`; the graph
library's `ShortestPath` as a minimal-edge-count walk search.
-/

namespace Slice

/-- Go strings, modelled as their character lists. -/
abbrev Str := List Char

/-- The single-quote character (used by `fmt.Sprintf` detail strings). -/
def sq : Char := Char.ofNat 39

/-- Decimal digit character, as produced by `%d` formatting. -/
def digitChar (n : Nat) : Char := Char.ofNat (48 + n)

/-- Digit-by-digit rendering, with structural fuel (`fuel ≥ n` suffices,
since `n / 10 < n` for `n ≥ 10`). -/
def natCharsAux : Nat → Nat → Str
  | 0, n => [digitChar n]
  | fuel + 1, n =>
    if n < 10 then [digitChar n]
    else natCharsAux fuel (n / 10) ++ [digitChar (n % 10)]

/-- Decimal rendering of a natural number (the `%d` verb on a non-negative int). -/
def natChars (n : Nat) : Str := natCharsAux n n

/-- Decimal rendering of a Go `int` (the `%d` verb). -/
def intChars (i : Int) : Str :=
  if i < 0 then Char.ofNat 45 :: natChars i.natAbs else natChars i.toNat

/-- `strings.Split(s, sep)` for a one-character separator: the pieces of `s`
between occurrences of `c` (empty pieces included). -/
def splitOnChar (c : Char) : Str → List Str
  | [] => [[]]
  | x :: xs =>
    if x = c then [] :: splitOnChar c xs
    else
      match splitOnChar c xs with
      | [] => [[x]]
      | p :: ps => (x :: p) :: ps

/-- Function IDs as generated by the parser (`parser.go`):
`fmt.Sprintf("%s:%d:%s", filename, startLine, functionName)`. -/
def mkID (file : Str) (line : Nat) (name : Str) : Str :=
  file ++ ':' :: natChars line ++ ':' :: name

/-- `extractFunctionName` (callgraph.go): split the ID on `:` and take the
third part when there are at least three parts, else the whole ID. -/
def extractFunctionName (funcID : Str) : Str :=
  let parts := splitOnChar ':' funcID
  if 3 ≤ parts.length then parts.getD 2 [] else funcID

/-- A parsed callee reference (only the name is used to build edges). -/
structure Callee where
  name : Str
deriving DecidableEq

/-- The fields of `parser.Function` consumed by `BuildCallGraph`. -/
structure ParsedFunction where
  id : Str
  name : Str
  callees : List Callee
deriving DecidableEq

/-- The call graph: directed graph over function-ID strings plus the
name → IDs index (`CallGraph.functions` in the Go code). -/
structure CallGraph where
  vertices : List Str
  edges : List (Str × Str)
  functions : Str → List Str

/-- `graph.AddVertex`: adding an existing vertex is a no-op (the returned
error is discarded). -/
def addVertex (vs : List Str) (v : Str) : List Str :=
  if v ∈ vs then vs else vs ++ [v]

/-- `graph.AddEdge`: adding an existing edge is a no-op (the returned
error is discarded). -/
def addEdge (es : List (Str × Str)) (e : Str × Str) : List (Str × Str) :=
  if e ∈ es then es else es ++ [e]

/-- `cg.functions[name] = append(cg.functions[name], id)`. -/
def addFuncIndex (m : Str → List Str) (name id : Str) : Str → List Str :=
  fun n => if n = name then m n ++ [id] else m n

/-- `BuildCallGraph` (callgraph.go): vertices and the name index from all
function records, then one edge per (caller, callee-name, matching ID);
callee names absent from the index contribute nothing. -/
def buildCallGraph (fns : List ParsedFunction) : CallGraph :=
  let functions := fns.foldl (fun m f => addFuncIndex m f.name f.id) (fun _ => [])
  let vertices := fns.foldl (fun vs f => addVertex vs f.id) []
  let edges := fns.foldl (fun es caller =>
    caller.callees.foldl (fun es callee =>
      (functions callee.name).foldl (fun es calleeID => addEdge es (caller.id, calleeID)) es) es) []
  ⟨vertices, edges, functions⟩

/-- Successors of a vertex in the edge list. -/
def succs (es : List (Str × Str)) (v : Str) : List Str :=
  (es.filter (fun e => decide (e.1 = v))).map (fun e => e.2)

/-- All walks from `a` to `b` using exactly `d` edges. -/
def walksLen (es : List (Str × Str)) : Nat → Str → Str → List (List Str)
  | 0, a, b => if a = b then [[a]] else []
  | d + 1, a, b => (succs es a).flatMap (fun s => (walksLen es d s b).map (fun w => a :: w))

/-- Model of `graph.ShortestPath` (unweighted: each edge counts 1): the
first walk found when searching by increasing edge count, up to the number
of vertices; `none` when the target is unreachable. -/
def shortestPath (cg : CallGraph) (a b : Str) : Option (List Str) :=
  (List.range (cg.vertices.length + 1)).findSome? (fun d => (walksLen cg.edges d a b).head?)

/-- `reachabilityAnalyzer.findPaths`: cap the search depth at 5, drop the
shortest path when it exceeds the cap, otherwise return it (converted to
function names) as the single reported chain. -/
def findPaths (cg : CallGraph) (maxDepth : Int) (fromId toId : Str) : List (List Str) :=
  let searchDepth : Int := if maxDepth > 5 then 5 else maxDepth
  match shortestPath cg fromId toId with
  | none => []
  | some p => if (p.length : Int) - 1 > searchDepth then [] else [p.map extractFunctionName]

/-- `RelationshipType` (callgraph.go). -/
inductive RelationshipType where
  | NoRelationship
  | SameFunction
  | ForwardReachable
  | BackwardReachable
  | CommonAncestor
deriving DecidableEq

/-- The mutable state of `reachabilityAnalyzer` (common callers kept as an
insertion-ordered deduplicated list, modelling the Go `map[string]bool`). -/
structure Analyzer where
  foundRelationship : Bool
  relationshipType : RelationshipType
  allPaths : List (List Str)
  commonCallers : List Str
deriving DecidableEq

/-- `reachabilityAnalyzer.findCommonAncestors`: disabled for performance,
always returns nil. -/
def findCommonAncestors (_cg : CallGraph) (_sourceID _targetID : Str) : List Str := []

/-- `reachabilityAnalyzer.addPaths`: append paths subject to the global
limit of 10 accumulated paths. -/
def addPathsList (acc : List (List Str)) (paths : List (List Str)) : List (List Str) :=
  paths.foldl (fun acc p => if 10 ≤ acc.length then acc else acc ++ [p]) acc

/-- Insertion into the `commonCallers` set. -/
def insertCaller (cs : List Str) (name : Str) : List Str :=
  if name ∈ cs then cs else cs ++ [name]

/-- `reachabilityAnalyzer.analyzePair`: the four cases in priority order
(same function, forward path, backward path, common ancestor). -/
def analyzePair (cg : CallGraph) (md : Int) (st : Analyzer) (sourceID targetID : Str) : Analyzer :=
  if sourceID = targetID then
    { st with foundRelationship := true, relationshipType := .SameFunction,
              allPaths := st.allPaths ++ [[extractFunctionName sourceID]] }
  else
    let fwd := findPaths cg md sourceID targetID
    if 0 < fwd.length then
      { st with foundRelationship := true, relationshipType := .ForwardReachable,
                allPaths := addPathsList st.allPaths fwd }
    else
      let bwd := findPaths cg md targetID sourceID
      if 0 < bwd.length then
        { st with foundRelationship := true, relationshipType := .BackwardReachable,
                  allPaths := addPathsList st.allPaths bwd }
      else
        let callers := findCommonAncestors cg sourceID targetID
        if 0 < callers.length then
          let firstCaller := callers.headD []
          let paths1 := findPaths cg md firstCaller sourceID
          let paths2 := findPaths cg md firstCaller targetID
          { st with foundRelationship := true, relationshipType := .CommonAncestor,
                    allPaths := addPathsList (addPathsList st.allPaths paths1) paths2,
                    commonCallers :=
                      callers.foldl (fun cs c => insertCaller cs (extractFunctionName c)) st.commonCallers }
        else st

/-- `calculatePathDepths`: min/max of chain depths, with the common-ancestor
special case summing the first chain's depth with that of any chain ending
at a different endpoint. -/
def calculatePathDepths (paths : List (List Str)) : Int × Int :=
  match paths with
  | [] => (0, 0)
  | p0 :: rest =>
    let m0 : Int := (p0.length : Int) - 1
    let mm := rest.foldl (fun (mm : Int × Int) p =>
      let d : Int := (p.length : Int) - 1
      (if d < mm.1 then d else mm.1, if d > mm.2 then d else mm.2)) (m0, m0)
    if 2 ≤ paths.length then
      let lastFunc1 := p0.getLastD []
      let mx2 := rest.foldl (fun acc p =>
        if lastFunc1 ≠ p.getLastD [] then
          let totalDepth : Int := ((p0.length : Int) - 1) + ((p.length : Int) - 1)
          if totalDepth > acc then totalDepth else acc
        else acc) mm.2
      (mm.1, mx2)
    else mm

/-- `deduplicatePaths`: keep first occurrence, keyed by the chain joined
with `->`. -/
def deduplicatePaths (paths : List (List Str)) : List (List Str) :=
  (paths.foldl (fun (acc : List Str × List (List Str)) p =>
    let key := List.intercalate ['-', '>'] p
    if key ∈ acc.1 then acc else (acc.1 ++ [key], acc.2 ++ [p])) ([], [])).2

/-- `ReachabilityAnalysis` (omitted JSON fields default to nil/0). -/
structure ReachabilityAnalysis where
  IsValid : Bool
  Reason : Str
  CallChains : List (List Str)
  CommonCallers : List Str
  Details : Str
  MinDepth : Int
  MaxDepth : Int
deriving DecidableEq

/-- `reachabilityAnalyzer.buildResult`. -/
def buildResult (md : Int) (sourceFuncName targetFuncName : Str) (st : Analyzer) :
    ReachabilityAnalysis :=
  if st.foundRelationship = false then
    { IsValid := false
      Reason := "No reachability relationship found between functions".data
      CallChains := []
      CommonCallers := []
      Details := "No direct calls, reverse calls, or common callers found between ".data ++
        sourceFuncName ++ " and ".data ++ targetFuncName ++ " within depth ".data ++ intChars md
      MinDepth := 0
      MaxDepth := 0 }
  else
    let rel : Str × Str :=
      match st.relationshipType with
      | .SameFunction =>
        ("Functions are the same".data,
         "Both operations occur in the same function: ".data ++ sourceFuncName)
      | .ForwardReachable =>
        ("Source function can reach target function".data,
         if 0 < st.allPaths.length ∧ (st.allPaths.headD []).length = 2 then
           "Direct call: ".data ++ sourceFuncName ++ " calls ".data ++ targetFuncName
         else
           "Call chain: ".data ++ sourceFuncName ++ " → ".data ++ targetFuncName)
      | .BackwardReachable =>
        ("Target function can reach source function".data,
         if 0 < st.allPaths.length ∧ (st.allPaths.headD []).length = 2 then
           "Reverse call: ".data ++ targetFuncName ++ " calls ".data ++ sourceFuncName
         else
           "Reverse call chain: ".data ++ targetFuncName ++ " → ".data ++ sourceFuncName)
      | .CommonAncestor =>
        ("Functions have common caller".data,
         if st.commonCallers.length = 1 then
           "Common caller: ".data ++ st.commonCallers.headD [] ++ " calls both ".data ++
             sourceFuncName ++ " and ".data ++ targetFuncName
         else
           "Found ".data ++ natChars st.commonCallers.length ++
             " common callers that reach both functions".data)
      | .NoRelationship => ([], [])
    let callerList := st.commonCallers.take 10
    let depths := calculatePathDepths st.allPaths
    let uniquePaths := deduplicatePaths st.allPaths
    { IsValid := true
      Reason := rel.1
      CallChains := uniquePaths
      CommonCallers := callerList
      Details := rel.2
      MinDepth := depths.1
      MaxDepth := depths.2 }

/-- The initial `reachabilityAnalyzer` state. -/
def initAnalyzer : Analyzer :=
  { foundRelationship := false, relationshipType := .NoRelationship
    allPaths := [], commonCallers := [] }

/-- One step of the inner loop over target IDs (`break` once a
relationship has been found). -/
def innerStep (cg : CallGraph) (md : Int) (s : Str) (st : Analyzer) (t : Str) : Analyzer :=
  if st.foundRelationship then st else analyzePair cg md st s t

/-- One step of the outer loop over source IDs. -/
def outerStep (cg : CallGraph) (md : Int) (targetIDs : List Str) (st : Analyzer) (s : Str) :
    Analyzer :=
  if st.foundRelationship then st else targetIDs.foldl (innerStep cg md s) st

/-- The nested combination loop of `AnalyzeReachability`, with early exit
once a relationship has been found. -/
def analyzeCombos (cg : CallGraph) (md : Int) (sourceIDs targetIDs : List Str) : Analyzer :=
  sourceIDs.foldl (outerStep cg md targetIDs) initAnalyzer

/-- `CallGraph.AnalyzeReachability`: resolve both names, report a structured
not-found result when either side is missing, otherwise analyze all ID
combinations and build the result. -/
def AnalyzeReachability (cg : CallGraph) (sourceFuncName targetFuncName : Str) (maxDepth : Int) :
    ReachabilityAnalysis :=
  let sourceIDs := cg.functions sourceFuncName
  let targetIDs := cg.functions targetFuncName
  if sourceIDs.length = 0 then
    { IsValid := false
      Reason := "Free function not found in call graph".data
      CallChains := []
      CommonCallers := []
      Details := "Function ".data ++ sq :: sourceFuncName ++ sq ::
        " was not found in the parsed codebase".data
      MinDepth := 0
      MaxDepth := 0 }
  else if targetIDs.length = 0 then
    { IsValid := false
      Reason := "Use function not found in call graph".data
      CallChains := []
      CommonCallers := []
      Details := "Function ".data ++ sq :: targetFuncName ++ sq ::
        " was not found in the parsed codebase".data
      MinDepth := 0
      MaxDepth := 0 }
  else
    buildResult maxDepth sourceFuncName targetFuncName (analyzeCombos cg maxDepth sourceIDs targetIDs)

/-- `CallGraph.ValidateCallRelationship`: alias for `AnalyzeReachability`. -/
def ValidateCallRelationship (cg : CallGraph) (freeFuncName useFuncName : Str) (maxDepth : Int) :
    ReachabilityAnalysis :=
  AnalyzeReachability cg freeFuncName useFuncName maxDepth

/-! ### Enrichment pipeline fan-out / fan-in

`EnrichResults` pushes `workItem{index: i, result: results[i]}` for each
input position, workers compute deterministically per item and send
`workResult{index, finding-or-nil}` on the result channel, and the collector
rebuilds the output slice in index order.  Per-item work is abstracted as a
function (`α → Option β` for the enricher, whose `none` models a finding
dropped by validation/depth filtering, and `α → β × Option ε` for the
generic worker pool, pairing the produced value with a possible error).
Any completion order of the channel is modelled by quantifying over all
permutations of the sent results. -/

/-- The multiset of results sent on the channel, tagged with the original
index (starting at `i`), in dispatch order. -/
def indexedOutputs {α γ : Type} (f : α → γ) : Nat → List α → List (Nat × γ)
  | _, [] => []
  | i, x :: xs => (i, f x) :: indexedOutputs f (i + 1) xs

/-- One step of the `EnrichResults` collection loop:
`if result.finding != nil { findingsMap[result.index] = result.finding }`. -/
def applyWorkResult {β : Type} (m : Nat → Option β) (r : Nat × Option β) : Nat → Option β :=
  match r.2 with
  | some f => fun i => if i = r.1 then some f else m i
  | none => m

/-- The `findingsMap` built from the received channel contents. -/
def findingsMap {β : Type} (chan : List (Nat × Option β)) : Nat → Option β :=
  chan.foldl applyWorkResult (fun _ => none)

/-- The ordered rebuild: for `i = 0 .. n-1`, append `findingsMap[i]` when
present (`EnrichResults`, "Build ordered results slice"). -/
def enrichedResults {β : Type} (n : Nat) (chan : List (Nat × Option β)) : List β :=
  (List.range n).filterMap (fun i => findingsMap chan i)

/-- One step of the `WorkerPool.ProcessItems` collection loop: bounds-check
the index, store `Data` in the slot, remember the first error. -/
def applyPoolResult {β ε : Type} (n : Nat) (acc : (Nat → β) × Option ε)
    (r : Nat × β × Option ε) : (Nat → β) × Option ε :=
  if r.1 < n then
    (fun i => if i = r.1 then r.2.1 else acc.1 i,
     match acc.2 with
     | some e => some e
     | none => r.2.2)
  else acc

/-- The `ProcessItems` fan-in: fold the channel into the pre-allocated
result slots (zero value `default`) and the remembered first error, then
materialize the slots in index order. -/
def processItemsCollect {β ε : Type} (n : Nat) (default : β)
    (chan : List (Nat × β × Option ε)) : List β × Option ε :=
  let acc := chan.foldl (applyPoolResult n) ((fun _ => default), none)
  ((List.range n).map acc.1, acc.2)

/-! ### Validation statistics (`EnrichResults` with `validateCalls` on) -/

/-- The two fields of `CodeQLResult` consumed by call-chain validation. -/
structure CodeQLResult where
  FreeFunctionName : Str
  UseFunctionName : Str
deriving DecidableEq

/-- The three atomic counters. -/
structure ValidationStats where
  total : Nat
  valid : Nat
  invalid : Nat
deriving DecidableEq

/-- `searchDepth := callDepth; if searchDepth < 0 { searchDepth = 10 }`. -/
def validationSearchDepth (callDepth : Int) : Int :=
  if callDepth < 0 then 10 else callDepth

/-- The statistics updates performed by a worker for one finding when
validation is enabled: bump `total`, then either `valid` or `invalid`
(a valid relationship deeper than a non-negative `callDepth` counts as
invalid, like a failed validation). -/
def validationStep (cg : CallGraph) (callDepth : Int) (st : ValidationStats)
    (r : CodeQLResult) : ValidationStats :=
  let validation := ValidateCallRelationship cg r.FreeFunctionName r.UseFunctionName
    (validationSearchDepth callDepth)
  let st := { st with total := st.total + 1 }
  if validation.IsValid then
    if 0 ≤ callDepth ∧ callDepth < validation.MaxDepth then
      { st with invalid := st.invalid + 1 }
    else
      { st with valid := st.valid + 1 }
  else
    { st with invalid := st.invalid + 1 }

/-- The final counter values after a run over `results` (atomic increments
commute, so any interleaving yields this fold over some ordering of the
findings; the theorem quantifies over every list, hence every ordering). -/
def runValidationStats (cg : CallGraph) (callDepth : Int) (results : List CodeQLResult) :
    ValidationStats :=
  results.foldl (validationStep cg callDepth) ⟨0, 0, 0⟩

/-! ### Generic fold lemmas -/

/-- Invariant preservation along a left fold. -/
theorem foldl_preserves {γ δ : Type} (g : δ → γ → δ) (P : δ → Prop) :
    ∀ (l : List γ) (st : δ), P st → (∀ st x, P st → P (g st x)) → P (l.foldl g st) := by
  intro l
  induction l with
  | nil => intro st h _; exact h
  | cons x xs ih =>
    intro st h hstep
    exact ih (g st x) (hstep st x h) hstep

/-- Once the analyzer has found a relationship, the guarded combination
loops leave it unchanged. -/
theorem foldl_guard_found {γ : Type} (g : Analyzer → γ → Analyzer) :
    ∀ (l : List γ) (st : Analyzer), st.foundRelationship = true →
      l.foldl (fun st x => if st.foundRelationship then st else g st x) st = st := by
  intro l
  induction l with
  | nil => intro st _; rfl
  | cons x xs ih =>
    intro st h
    simp only [List.foldl_cons, h, if_true]
    exact ih st h

/-! ### C9: validation statistics -/

/-- Each validation step adds 1 to `total` and 1 to exactly one of
`valid`/`invalid`. -/
theorem validationStep_inv (cg : CallGraph) (cd : Int) :
    ∀ (rs : List CodeQLResult) (st : ValidationStats),
      st.total = st.valid + st.invalid →
      (rs.foldl (validationStep cg cd) st).total =
        (rs.foldl (validationStep cg cd) st).valid +
          (rs.foldl (validationStep cg cd) st).invalid := by
  intro rs
  induction rs with
  | nil => intro st h; exact h
  | cons r rs ih =>
    intro st h
    simp only [List.foldl_cons]
    apply ih
    simp only [validationStep]
    split
    · split
      · simp; omega
      · simp; omega
    · simp; omega

/-- C9: after any enrichment run with validation enabled, the statistics
counters satisfy `total = valid + invalid`: every finding submitted to
validation bumps `total` once and exactly one of `valid`/`invalid`. -/
theorem c9_stats_invariant (cg : CallGraph) (callDepth : Int) (results : List CodeQLResult) :
    (runValidationStats cg callDepth results).total =
      (runValidationStats cg callDepth results).valid +
        (runValidationStats cg callDepth results).invalid := by
  exact validationStep_inv cg callDepth results ⟨0, 0, 0⟩ rfl

/-! ### C5: missing names give a structured negative result -/

/-- C5: when either function name resolves to no identifiers, the analysis
returns a structured result with `IsValid = false` whose reason names the
missing side (free/source vs use/target); being a total function it has no
abnormal outcome. -/
theorem c5_missing_names (cg : CallGraph) (s t : Str) (md : Int)
    (h : cg.functions s = [] ∨ cg.functions t = []) :
    (AnalyzeReachability cg s t md).IsValid = false ∧
      (cg.functions s = [] →
        (AnalyzeReachability cg s t md).Reason = "Free function not found in call graph".data) ∧
      (cg.functions s ≠ [] →
        (AnalyzeReachability cg s t md).Reason = "Use function not found in call graph".data) := by
  rcases h with h | h
  · refine ⟨?_, fun _ => ?_, fun hs => absurd h hs⟩ <;>
      simp [AnalyzeReachability, h]
  · by_cases hs : cg.functions s = []
    · refine ⟨?_, fun _ => ?_, fun hs' => absurd hs hs'⟩ <;>
        simp [AnalyzeReachability, hs]
    · have hlen : ¬ (cg.functions s).length = 0 := by
        simpa [List.length_eq_zero] using hs
      refine ⟨?_, fun hs' => absurd hs' hs, fun _ => ?_⟩ <;>
        simp [AnalyzeReachability, hlen, h]

/-- Witness for C5 at a concrete graph with no registered functions. -/
theorem c5_missing_names_witness :
    (AnalyzeReachability (buildCallGraph []) "alpha".data "beta".data 3).IsValid = false ∧
      ((buildCallGraph []).functions "alpha".data = [] →
        (AnalyzeReachability (buildCallGraph []) "alpha".data "beta".data 3).Reason =
          "Free function not found in call graph".data) ∧
      ((buildCallGraph []).functions "alpha".data ≠ [] →
        (AnalyzeReachability (buildCallGraph []) "alpha".data "beta".data 3).Reason =
          "Use function not found in call graph".data) :=
  c5_missing_names (buildCallGraph []) "alpha".data "beta".data 3 (Or.inl rfl)

/-! ### C6: common-ancestor shape sums the two branch depths -/

/-- C6: for two accumulated chains ending at different endpoints (the
common-ancestor shape), the reported maximum depth is the sum of the two
branch depths (each chain length minus one), not their maximum; the
minimum is the smaller branch depth. -/
theorem c6_depth_sum (p q : List Str) (hp : p ≠ []) (hq : q ≠ [])
    (hne : p.getLastD [] ≠ q.getLastD []) :
    calculatePathDepths [p, q] =
      (min ((p.length : Int) - 1) ((q.length : Int) - 1),
       ((p.length : Int) - 1) + ((q.length : Int) - 1)) := by
  have hp1 : 0 < p.length := List.length_pos.mpr hp
  have hq1 : 0 < q.length := List.length_pos.mpr hq
  simp only [calculatePathDepths, List.foldl_cons, List.foldl_nil, List.length_cons,
    List.length_nil, hne, ne_eq, not_false_eq_true, if_true]
  norm_num
  constructor
  · split <;> omega
  · split <;> omega

/-- Witness for C6 on concrete chains `[a, m, x]` and `[a, y]`. -/
theorem c6_depth_sum_witness :
    calculatePathDepths [["a".data, "m".data, "x".data], ["a".data, "y".data]] =
      (min ((([ "a".data, "m".data, "x".data ] : List Str).length : Int) - 1)
           ((([ "a".data, "y".data ] : List Str).length : Int) - 1),
       ((([ "a".data, "m".data, "x".data ] : List Str).length : Int) - 1) +
         ((([ "a".data, "y".data ] : List Str).length : Int) - 1)) :=
  c6_depth_sum ["a".data, "m".data, "x".data] ["a".data, "y".data]
    (by decide) (by decide) (by decide)

/-! ### Walk facts and per-pair path shapes -/

/-- Every walk with `d` edges has `d + 1` vertices. -/
theorem walksLen_length (es : List (Str × Str)) :
    ∀ (d : Nat) (a b : Str) (w : List Str), w ∈ walksLen es d a b → w.length = d + 1 := by
  intro d
  induction d with
  | zero =>
    intro a b w hw
    simp only [walksLen] at hw
    split at hw
    · simp only [List.mem_singleton] at hw
      subst hw; rfl
    · simp at hw
  | succ d ih =>
    intro a b w hw
    simp only [walksLen, List.mem_flatMap, List.mem_map] at hw
    obtain ⟨s, _, w', hw', rfl⟩ := hw
    simp [ih s b w' hw']

/-- `findPaths` returns at most one chain (the shortest path or nothing). -/
theorem findPaths_cases (cg : CallGraph) (md : Int) (a b : Str) :
    findPaths cg md a b = [] ∨ ∃ q, findPaths cg md a b = [q] := by
  cases h : shortestPath cg a b with
  | none => left; simp [findPaths, h]
  | some p =>
    by_cases hgt : (p.length : Int) - 1 > (if md > 5 then 5 else md)
    · left; simp [findPaths, h, hgt]
    · right; exact ⟨p.map extractFunctionName, by simp [findPaths, h, hgt]⟩

/-! ### C1: the internal search cap of 5 edges -/

/-- Names of the 8-function chain `f0 → f1 → ⋯ → f7`. -/
def chainName (i : Nat) : Str := "f".data ++ natChars i

/-- Function IDs of the chain, in the parser's `file:line:name` format. -/
def chainID (i : Nat) : Str := mkID "c.c".data i (chainName i)

/-- The registry of the chain: `fi` calls `f(i+1)` for `i < 7`. -/
def chainFns : List ParsedFunction :=
  (List.range 8).map (fun i =>
    { id := chainID i
      name := chainName i
      callees := if i < 7 then [⟨chainName (i + 1)⟩] else [] })

/-- The call graph of the chain (true shortest path `f0 → f7` has 7 edges). -/
def chainCG : CallGraph := buildCallGraph chainFns

/-- C1: path existence is decided by the shortest path truncated at the
internal cap of 5 edges: whenever the shortest-path computation yields a
path with more than 5 edges, `findPaths` reports no path for the pair, for
every caller-supplied `maxDepth`; in particular on a chain whose shortest
path has 7 edges, `AnalyzeReachability` with `maxDepth = 10` reports no
path at all. -/
theorem c1_search_cap :
    (∀ (cg : CallGraph) (md : Int) (a b : Str) (p : List Str),
        shortestPath cg a b = some p → 5 < (p.length : Int) - 1 →
        findPaths cg md a b = []) ∧
    (AnalyzeReachability chainCG (chainName 0) (chainName 7) 10).IsValid = false := by
  constructor
  · intro cg md a b p hsp hlen
    simp only [findPaths, hsp]
    have hgt : (p.length : Int) - 1 > (if md > 5 then 5 else md) := by
      split <;> omega
    simp [hgt]
  · decide

/-- Witness for C1: on the concrete chain the shortest path from `f0`'s
identifier to `f7`'s identifier has 7 edges, and `findPaths` drops it even
with `maxDepth = 10`. -/
theorem c1_search_cap_witness :
    findPaths chainCG 10 (chainID 0) (chainID 7) = [] :=
  c1_search_cap.1 chainCG 10 (chainID 0) (chainID 7)
    ((List.range 8).map chainID) (by decide) (by decide)

/-! ### The analyzer invariant: no common ancestors, at most one chain -/

/-- Invariant maintained by the combination loop: the common-caller set
stays empty, no relationship means no accumulated chains, and a found
relationship means exactly one accumulated chain of one of the three
enabled kinds. -/
def AnalyzerInv (st : Analyzer) : Prop :=
  st.commonCallers = [] ∧
  (st.foundRelationship = false → st.allPaths = []) ∧
  (st.foundRelationship = true →
    (∃ p, st.allPaths = [p]) ∧
    (st.relationshipType = .SameFunction ∨ st.relationshipType = .ForwardReachable ∨
      st.relationshipType = .BackwardReachable))

/-- One guarded combination step preserves the invariant. -/
theorem analyzePair_inv (cg : CallGraph) (md : Int) (s t : Str) (st : Analyzer)
    (h : AnalyzerInv st) :
    AnalyzerInv (if st.foundRelationship then st else analyzePair cg md st s t) := by
  cases hfr : st.foundRelationship with
  | true => simpa [hfr] using h
  | false =>
    obtain ⟨hcc, hnf, _⟩ := h
    have hpaths : st.allPaths = [] := hnf hfr
    simp only [hfr, if_false, Bool.false_eq_true]
    simp only [analyzePair]
    split
    · exact ⟨hcc, by simp, fun _ =>
        ⟨⟨[extractFunctionName s], by simp [hpaths]⟩, Or.inl rfl⟩⟩
    · split
      · rename_i hfwd
        rcases findPaths_cases cg md s t with hc | ⟨q, hc⟩
        · rw [hc] at hfwd; simp at hfwd
        · exact ⟨hcc, by simp, fun _ =>
            ⟨⟨q, by simp [hc, hpaths, addPathsList]⟩, Or.inr (Or.inl rfl)⟩⟩
      · split
        · rename_i hbwd
          rcases findPaths_cases cg md t s with hc | ⟨q, hc⟩
          · rw [hc] at hbwd; simp at hbwd
          · exact ⟨hcc, by simp, fun _ =>
              ⟨⟨q, by simp [hc, hpaths, addPathsList]⟩, Or.inr (Or.inr rfl)⟩⟩
        · split
          · rename_i hca
            simp [findCommonAncestors] at hca
          · exact ⟨hcc, fun _ => hpaths, by simp [hfr]⟩

/-- The whole combination loop establishes the invariant. -/
theorem analyzeCombos_inv (cg : CallGraph) (md : Int) (sourceIDs targetIDs : List Str) :
    AnalyzerInv (analyzeCombos cg md sourceIDs targetIDs) := by
  refine foldl_preserves _ AnalyzerInv sourceIDs initAnalyzer ?_ ?_
  · exact ⟨rfl, fun _ => rfl, by simp [initAnalyzer]⟩
  · intro st s hst
    unfold outerStep
    by_cases hfr : st.foundRelationship = true
    · simpa [hfr] using hst
    · simp only [Bool.not_eq_true] at hfr
      simp only [hfr, if_false, Bool.false_eq_true]
      refine foldl_preserves _ AnalyzerInv targetIDs st hst ?_
      intro st' t hst'
      simpa [innerStep] using analyzePair_inv cg md s t st' hst'

/-- Deduplicating a single chain is the identity. -/
theorem deduplicatePaths_singleton (q : List Str) : deduplicatePaths [q] = [q] := rfl

/-- Depth metrics of a single chain: both bounds are its length minus one. -/
theorem calculatePathDepths_singleton (q : List Str) :
    calculatePathDepths [q] = ((q.length : Int) - 1, (q.length : Int) - 1) := by
  simp [calculatePathDepths]

/-- `buildResult` under the invariant: no common callers reported and the
reason is never the common-caller one. -/
theorem buildResult_no_common (md : Int) (sn tn : Str) (st : Analyzer)
    (hinv : AnalyzerInv st) :
    (buildResult md sn tn st).CommonCallers = [] ∧
    (buildResult md sn tn st).Reason ≠ "Functions have common caller".data ∧
    ((buildResult md sn tn st).IsValid = true →
      (buildResult md sn tn st).Reason = "Functions are the same".data ∨
      (buildResult md sn tn st).Reason = "Source function can reach target function".data ∨
      (buildResult md sn tn st).Reason = "Target function can reach source function".data) := by
  obtain ⟨hcc, _, hf⟩ := hinv
  cases hfr : st.foundRelationship with
  | false =>
    refine ⟨?_, ?_, ?_⟩ <;> simp [buildResult, hfr]
  | true =>
    obtain ⟨_, htype⟩ := hf hfr
    rcases htype with ht | ht | ht <;>
      refine ⟨?_, ?_, ?_⟩ <;>
        simp [buildResult, hfr, ht, hcc]

/-- `buildResult` under the invariant: at most one chain, and on success a
single chain whose length minus one is both depth bounds. -/
theorem buildResult_single_chain (md : Int) (sn tn : Str) (st : Analyzer)
    (hinv : AnalyzerInv st) :
    (buildResult md sn tn st).CallChains.length ≤ 1 ∧
    ((buildResult md sn tn st).IsValid = true →
      ∃ p, (buildResult md sn tn st).CallChains = [p] ∧
        (buildResult md sn tn st).MinDepth = (p.length : Int) - 1 ∧
        (buildResult md sn tn st).MaxDepth = (p.length : Int) - 1) := by
  obtain ⟨_, _, hf⟩ := hinv
  cases hfr : st.foundRelationship with
  | false => refine ⟨?_, ?_⟩ <;> simp [buildResult, hfr]
  | true =>
    obtain ⟨⟨p, hap⟩, _⟩ := hf hfr
    refine ⟨?_, fun _ => ⟨p, ?_, ?_, ?_⟩⟩ <;>
      simp [buildResult, hfr, hap, deduplicatePaths_singleton, calculatePathDepths_singleton]

/-- C3: the common-ancestor case is disabled: `AnalyzeReachability` never
reports the common-caller relationship, always returns an empty
`CommonCallers` set, and a valid result is one of the three enabled kinds. -/
theorem c3_common_ancestor_disabled (cg : CallGraph) (s t : Str) (md : Int) :
    (AnalyzeReachability cg s t md).CommonCallers = [] ∧
    (AnalyzeReachability cg s t md).Reason ≠ "Functions have common caller".data ∧
    ((AnalyzeReachability cg s t md).IsValid = true →
      (AnalyzeReachability cg s t md).Reason = "Functions are the same".data ∨
      (AnalyzeReachability cg s t md).Reason = "Source function can reach target function".data ∨
      (AnalyzeReachability cg s t md).Reason =
        "Target function can reach source function".data) := by
  by_cases h1 : (cg.functions s).length = 0
  · refine ⟨?_, ?_, ?_⟩ <;> simp [AnalyzeReachability, h1]
  · by_cases h2 : (cg.functions t).length = 0
    · refine ⟨?_, ?_, ?_⟩ <;> simp [AnalyzeReachability, h1, h2]
    · have := buildResult_no_common md s t (analyzeCombos cg md (cg.functions s) (cg.functions t))
        (analyzeCombos_inv cg md (cg.functions s) (cg.functions t))
      simpa [AnalyzeReachability, h1, h2] using this

/-- Witness for C3 (instantiation is unconditional; the inner implication is
exercised at a graph where the query is valid via a direct self-match). -/
theorem c3_common_ancestor_disabled_witness :
    (AnalyzeReachability (buildCallGraph []) "a".data "b".data 4).CommonCallers = [] ∧
    (AnalyzeReachability (buildCallGraph []) "a".data "b".data 4).Reason ≠
      "Functions have common caller".data ∧
    ((AnalyzeReachability (buildCallGraph []) "a".data "b".data 4).IsValid = true →
      (AnalyzeReachability (buildCallGraph []) "a".data "b".data 4).Reason =
        "Functions are the same".data ∨
      (AnalyzeReachability (buildCallGraph []) "a".data "b".data 4).Reason =
        "Source function can reach target function".data ∨
      (AnalyzeReachability (buildCallGraph []) "a".data "b".data 4).Reason =
        "Target function can reach source function".data) :=
  c3_common_ancestor_disabled (buildCallGraph []) "a".data "b".data 4

/-- C10: every analysis result carries at most one call chain, and every
valid result carries exactly one, with `MinDepth = MaxDepth` equal to the
chain's length minus one — the sum-of-branch-depths case never fires for
results produced through `AnalyzeReachability`. -/
theorem c10_single_chain (cg : CallGraph) (s t : Str) (md : Int) :
    (AnalyzeReachability cg s t md).CallChains.length ≤ 1 ∧
    ((AnalyzeReachability cg s t md).IsValid = true →
      ∃ p, (AnalyzeReachability cg s t md).CallChains = [p] ∧
        (AnalyzeReachability cg s t md).MinDepth = (p.length : Int) - 1 ∧
        (AnalyzeReachability cg s t md).MaxDepth = (p.length : Int) - 1) := by
  by_cases h1 : (cg.functions s).length = 0
  · refine ⟨?_, ?_⟩ <;> simp [AnalyzeReachability, h1]
  · by_cases h2 : (cg.functions t).length = 0
    · refine ⟨?_, ?_⟩ <;> simp [AnalyzeReachability, h1, h2]
    · have := buildResult_single_chain md s t
        (analyzeCombos cg md (cg.functions s) (cg.functions t))
        (analyzeCombos_inv cg md (cg.functions s) (cg.functions t))
      simpa [AnalyzeReachability, h1, h2] using this

/-- Witness for C10 at a concrete query. -/
theorem c10_single_chain_witness :
    (AnalyzeReachability (buildCallGraph []) "a".data "b".data 4).CallChains.length ≤ 1 ∧
    ((AnalyzeReachability (buildCallGraph []) "a".data "b".data 4).IsValid = true →
      ∃ p, (AnalyzeReachability (buildCallGraph []) "a".data "b".data 4).CallChains = [p] ∧
        (AnalyzeReachability (buildCallGraph []) "a".data "b".data 4).MinDepth =
          (p.length : Int) - 1 ∧
        (AnalyzeReachability (buildCallGraph []) "a".data "b".data 4).MaxDepth =
          (p.length : Int) - 1) :=
  c10_single_chain (buildCallGraph []) "a".data "b".data 4

/-! ### String lemmas: extracting the function name from a parser ID -/

/-- Splitting a separator-free string yields just that string. -/
theorem splitOnChar_not_mem (c : Char) :
    ∀ (l : Str), c ∉ l → splitOnChar c l = [l] := by
  intro l
  induction l with
  | nil => intro _; rfl
  | cons x xs ih =>
    intro h
    have hx : ¬ x = c := fun he => h (by simp [he])
    have hxs : c ∉ xs := fun hm => h (by simp [hm])
    simp only [splitOnChar, hx, if_false, ih hxs]

/-- `splitOnChar` never returns the empty list of pieces. -/
theorem splitOnChar_ne_nil (c : Char) : ∀ (l : Str), splitOnChar c l ≠ [] := by
  intro l
  induction l with
  | nil => simp [splitOnChar]
  | cons x xs ih =>
    simp only [splitOnChar]
    split
    · simp
    · split
      · simp
      · simp

/-- Splitting around the first separator occurrence. -/
theorem splitOnChar_append (c : Char) :
    ∀ (l₁ l₂ : Str), c ∉ l₁ →
      splitOnChar c (l₁ ++ c :: l₂) = l₁ :: splitOnChar c l₂ := by
  intro l₁
  induction l₁ with
  | nil => intro l₂ _; simp [splitOnChar]
  | cons x xs ih =>
    intro l₂ h
    have hx : ¬ x = c := fun he => h (by simp [he])
    have hxs : c ∉ xs := fun hm => h (by simp [hm])
    simp only [List.cons_append, splitOnChar, hx, if_false, List.append_eq, ih l₂ hxs]

/-- Decimal digit characters are never a colon. -/
theorem digitChar_ne_colon (k : Nat) (hk : k < 10) : digitChar k ≠ ':' := by
  interval_cases k <;> decide

/-- The fueled decimal rendering contains no colon while the fuel covers
the value. -/
theorem colon_not_mem_natCharsAux :
    ∀ (fuel n : Nat), n ≤ fuel ∨ n < 10 → ':' ∉ natCharsAux fuel n := by
  intro fuel
  induction fuel with
  | zero =>
    intro n hn
    have h10 : n < 10 := by omega
    simpa [natCharsAux] using (digitChar_ne_colon n h10).symm
  | succ fuel ih =>
    intro n hn
    by_cases h10 : n < 10
    · simpa [natCharsAux, h10] using (digitChar_ne_colon n h10).symm
    · have hdiv : n / 10 ≤ fuel ∨ n / 10 < 10 := by omega
      have hmod : n % 10 < 10 := by omega
      simp only [natCharsAux, h10, if_false, List.mem_append, List.mem_singleton]
      push_neg
      exact ⟨ih (n / 10) hdiv, (digitChar_ne_colon (n % 10) hmod).symm⟩

/-- `%d` output contains no colon. -/
theorem colon_not_mem_natChars (n : Nat) : ':' ∉ natChars n :=
  colon_not_mem_natCharsAux n n (Or.inl le_rfl)

/-- On IDs of the parser shape `file:line:name` with colon-free file and
name, `extractFunctionName` recovers the name. -/
theorem extractFunctionName_mkID (file : Str) (line : Nat) (name : Str)
    (hfile : ':' ∉ file) (hname : ':' ∉ name) :
    extractFunctionName (mkID file line name) = name := by
  have hmk : mkID file line name = file ++ ':' :: (natChars line ++ ':' :: name) := by
    simp [mkID]
  have h1 : splitOnChar ':' (mkID file line name) =
      file :: splitOnChar ':' (natChars line ++ ':' :: name) := by
    rw [hmk]; exact splitOnChar_append ':' file _ hfile
  have h2 : splitOnChar ':' (natChars line ++ ':' :: name) =
      natChars line :: splitOnChar ':' name :=
    splitOnChar_append ':' (natChars line) name (colon_not_mem_natChars line)
  have h3 : splitOnChar ':' name = [name] := splitOnChar_not_mem ':' name hname
  simp [extractFunctionName, h1, h2, h3]

/-! ### C7: self-queries classify as SameFunction -/

/-- Left folds are stationary at a fixed point of every step. -/
theorem foldl_fixed {γ δ : Type} (g : δ → γ → δ) (st : δ) :
    ∀ (l : List γ), (∀ x, g st x = st) → l.foldl g st = st := by
  intro l
  induction l with
  | nil => intro _; rfl
  | cons x xs ih =>
    intro h
    rw [List.foldl_cons, h x]
    exact ih h

/-- When the first source ID equals the first target ID, the combination
loop stops at the SameFunction state for that ID. -/
theorem analyzeCombos_self (cg : CallGraph) (md : Int) (idX : Str) (rest1 rest2 : List Str) :
    analyzeCombos cg md (idX :: rest1) (idX :: rest2) =
      { foundRelationship := true, relationshipType := .SameFunction,
        allPaths := [[extractFunctionName idX]], commonCallers := [] } := by
  have hpair : analyzePair cg md initAnalyzer idX idX =
      ({ foundRelationship := true, relationshipType := .SameFunction,
         allPaths := [[extractFunctionName idX]], commonCallers := [] } : Analyzer) := by
    simp [analyzePair, initAnalyzer]
  have hinner : (idX :: rest2).foldl (innerStep cg md idX) initAnalyzer =
      ({ foundRelationship := true, relationshipType := .SameFunction,
         allPaths := [[extractFunctionName idX]], commonCallers := [] } : Analyzer) := by
    rw [List.foldl_cons]
    have h1 : innerStep cg md idX initAnalyzer idX =
        ({ foundRelationship := true, relationshipType := .SameFunction,
           allPaths := [[extractFunctionName idX]], commonCallers := [] } : Analyzer) := by
      unfold innerStep
      rw [show initAnalyzer.foundRelationship = false from rfl]
      simpa using hpair
    rw [h1]
    exact foldl_fixed _ _ rest2 (fun t => by simp [innerStep])
  unfold analyzeCombos
  rw [List.foldl_cons]
  have h2 : outerStep cg md (idX :: rest2) initAnalyzer idX =
      ({ foundRelationship := true, relationshipType := .SameFunction,
         allPaths := [[extractFunctionName idX]], commonCallers := [] } : Analyzer) := by
    simp only [outerStep, initAnalyzer]
    simpa [initAnalyzer] using hinner
  rw [h2]
  exact foldl_fixed _ _ rest1 (fun s => by simp [outerStep])

/-- C7: for every registered name `X` (IDs in the parser format) and every
`maxDepth`, `analyze(X, X, maxDepth)` is valid, classified SameFunction,
with a single one-element chain holding exactly `X`. -/
theorem c7_same_function (cg : CallGraph) (X file : Str) (line : Nat) (rest : List Str)
    (md : Int) (hidx : cg.functions X = mkID file line X :: rest)
    (hfile : ':' ∉ file) (hX : ':' ∉ X) :
    (AnalyzeReachability cg X X md).IsValid = true ∧
    (AnalyzeReachability cg X X md).Reason = "Functions are the same".data ∧
    (AnalyzeReachability cg X X md).CallChains = [[X]] := by
  have hcombos := analyzeCombos_self cg md (mkID file line X) rest rest
  have hex := extractFunctionName_mkID file line X hfile hX
  refine ⟨?_, ?_, ?_⟩ <;>
    simp [AnalyzeReachability, hidx, hcombos, buildResult, hex,
      deduplicatePaths_singleton]

/-- The single-function registry used to witness C7. -/
def c7Fn : ParsedFunction :=
  { id := mkID "a.c".data 3 "f".data
    name := "f".data
    callees := [] }

/-- Witness for C7: a registry with one function `f` declared in `a.c`. -/
theorem c7_same_function_witness :
    (AnalyzeReachability (buildCallGraph [c7Fn]) "f".data "f".data 9).IsValid = true ∧
    (AnalyzeReachability (buildCallGraph [c7Fn]) "f".data "f".data 9).Reason =
      "Functions are the same".data ∧
    (AnalyzeReachability (buildCallGraph [c7Fn]) "f".data "f".data 9).CallChains =
      [["f".data]] :=
  c7_same_function (buildCallGraph [c7Fn]) "f".data "a.c".data 3 [] 9
    (by decide) (by decide) (by decide)

/-! ### C8: a direct call is ForwardReachable at depth 1 -/

/-- A nonempty list all of whose elements are `v` has head `v`. -/
theorem head?_of_all {α : Type} (l : List α) (v : α) (hne : l ≠ [])
    (hall : ∀ x ∈ l, x = v) : l.head? = some v := by
  cases l with
  | nil => exact absurd rfl hne
  | cons x xs => simp [hall x (by simp)]

/-- An edge yields a successor. -/
theorem mem_succs (es : List (Str × Str)) (a b : Str) (h : (a, b) ∈ es) :
    b ∈ succs es a := by
  simp only [succs, List.mem_map]
  exact ⟨(a, b), by simp [List.mem_filter, h], rfl⟩

/-- Every one-edge walk from `a` to `b` is the two-vertex path `[a, b]`. -/
theorem walksLen_one_all (es : List (Str × Str)) (a b : Str) :
    ∀ w ∈ walksLen es 1 a b, w = [a, b] := by
  intro w hw
  simp only [walksLen, List.mem_flatMap, List.mem_map] at hw
  obtain ⟨s, _hs, w', hw', rfl⟩ := hw
  split at hw'
  · rename_i hsb
    simp only [List.mem_singleton] at hw'
    subst hw'
    rw [hsb]
  · simp at hw'

/-- An edge gives a one-edge walk. -/
theorem walksLen_one_mem (es : List (Str × Str)) (a b : Str) (h : (a, b) ∈ es) :
    [a, b] ∈ walksLen es 1 a b := by
  simp only [walksLen, List.mem_flatMap]
  refine ⟨b, mem_succs es a b h, ?_⟩
  simp [walksLen]

/-- With a direct edge between two distinct vertices, the shortest-path
computation returns exactly the two-vertex path. -/
theorem shortestPath_direct (cg : CallGraph) (a b : Str) (hab : a ≠ b)
    (he : (a, b) ∈ cg.edges) (hv : 1 ≤ cg.vertices.length) :
    shortestPath cg a b = some [a, b] := by
  unfold shortestPath
  obtain ⟨m, hm⟩ : ∃ m, cg.vertices.length = m + 1 := ⟨cg.vertices.length - 1, by omega⟩
  rw [hm]
  rw [List.range_succ_eq_map, List.range_succ_eq_map, List.map_cons]
  have h0 : (walksLen cg.edges 0 a b).head? = none := by simp [walksLen, hab]
  have h1 : (walksLen cg.edges 1 a b).head? = some [a, b] :=
    head?_of_all _ _ (List.ne_nil_of_mem (walksLen_one_mem cg.edges a b he))
      (walksLen_one_all cg.edges a b)
  simp [List.findSome?_cons, h0, h1]

/-- A single source ID and a single target ID make the combination loop a
single `analyzePair` call. -/
theorem analyzeCombos_single (cg : CallGraph) (md : Int) (idA idB : Str) :
    analyzeCombos cg md [idA] [idB] = analyzePair cg md initAnalyzer idA idB := by
  unfold analyzeCombos outerStep
  simp [innerStep, initAnalyzer]

/-- C8: when `A` calls `B` directly (a single edge between their distinct
identifiers), `analyze(A, B, d)` for any `d ≥ 1` is ForwardReachable with
the two-element chain `[A, B]` and `MinDepth = MaxDepth = 1`. -/
theorem c8_direct_call (cg : CallGraph) (A B fA fB : Str) (lA lB : Nat) (md : Int)
    (hmd : 1 ≤ md)
    (hA : cg.functions A = [mkID fA lA A]) (hB : cg.functions B = [mkID fB lB B])
    (hfa : ':' ∉ fA) (ha : ':' ∉ A) (hfb : ':' ∉ fB) (hb : ':' ∉ B)
    (hAB : A ≠ B)
    (hedge : (mkID fA lA A, mkID fB lB B) ∈ cg.edges)
    (hv : 1 ≤ cg.vertices.length) :
    AnalyzeReachability cg A B md =
      { IsValid := true
        Reason := "Source function can reach target function".data
        CallChains := [[A, B]]
        CommonCallers := []
        Details := "Direct call: ".data ++ A ++ " calls ".data ++ B
        MinDepth := 1
        MaxDepth := 1 } := by
  have hexA := extractFunctionName_mkID fA lA A hfa ha
  have hexB := extractFunctionName_mkID fB lB B hfb hb
  have hne : mkID fA lA A ≠ mkID fB lB B := fun hid => hAB (by rw [← hexA, hid, hexB])
  have hsp := shortestPath_direct cg (mkID fA lA A) (mkID fB lB B) hne hedge hv
  have hfp : findPaths cg md (mkID fA lA A) (mkID fB lB B) = [[A, B]] := by
    simp only [findPaths, hsp]
    have hsd : ¬ ((([mkID fA lA A, mkID fB lB B] : List Str).length : Int) - 1 >
        (if md > 5 then 5 else md)) := by
      simp only [List.length_cons, List.length_nil]
      split <;> omega
    rw [if_neg hsd]
    simp [hexA, hexB]
  have hpair : analyzePair cg md initAnalyzer (mkID fA lA A) (mkID fB lB B) =
      ({ foundRelationship := true, relationshipType := .ForwardReachable,
         allPaths := [[A, B]], commonCallers := [] } : Analyzer) := by
    simp [analyzePair, hne, hfp, addPathsList, initAnalyzer]
  have hcombos := analyzeCombos_single cg md (mkID fA lA A) (mkID fB lB B)
  simp [AnalyzeReachability, hA, hB, hcombos, hpair, buildResult,
    deduplicatePaths_singleton, calculatePathDepths]

/-- Caller record for the C8 witness: `f` at line 1 of `m.c` calls `g`. -/
def c8FnA : ParsedFunction :=
  { id := mkID "m.c".data 1 "f".data
    name := "f".data
    callees := [⟨"g".data⟩] }

/-- Callee record for the C8 witness: `g` at line 9 of `m.c`. -/
def c8FnB : ParsedFunction :=
  { id := mkID "m.c".data 9 "g".data
    name := "g".data
    callees := [] }

/-- The two-function call graph used to witness C8. -/
def c8CG : CallGraph := buildCallGraph [c8FnA, c8FnB]

/-- Witness for C8 on a concrete two-function registry with one edge. -/
theorem c8_direct_call_witness :
    AnalyzeReachability c8CG "f".data "g".data 10 =
      { IsValid := true
        Reason := "Source function can reach target function".data
        CallChains := [["f".data, "g".data]]
        CommonCallers := []
        Details := "Direct call: ".data ++ "f".data ++ " calls ".data ++ "g".data
        MinDepth := 1
        MaxDepth := 1 } :=
  c8_direct_call c8CG "f".data "g".data "m.c".data "m.c".data 1 9 10
    (by decide) (by decide) (by decide) (by decide) (by decide) (by decide)
    (by decide) (by decide) (by decide) (by decide)

/-! ### C2 / C4: fan-in lemmas shared by the enricher and the worker pool -/

/-- The indices carried by the worker outputs for `l`, starting at `i`,
are `i, i+1, …`. -/
theorem indexedOutputs_keys {α γ : Type} (f : α → γ) :
    ∀ (l : List α) (i : Nat),
      (indexedOutputs f i l).map Prod.fst = List.range' i l.length := by
  intro l
  induction l with
  | nil => intro i; rfl
  | cons x xs ih =>
    intro i
    simp [indexedOutputs, List.range'_succ, ih (i + 1)]

/-- The output for position `j` is on the channel. -/
theorem indexedOutputs_mem {α γ : Type} (f : α → γ) :
    ∀ (l : List α) (i j : Nat) (h : j < l.length),
      (i + j, f (l.get ⟨j, h⟩)) ∈ indexedOutputs f i l := by
  intro l
  induction l with
  | nil => intro i j h; simp at h
  | cons x xs ih =>
    intro i j h
    cases j with
    | zero => simp [indexedOutputs]
    | succ j =>
      simp only [indexedOutputs, List.mem_cons]
      right
      have heq : i + (j + 1) = (i + 1) + j := by omega
      rw [heq]
      exact ih (i + 1) j (Nat.lt_of_succ_lt_succ h)

/-- Indices absent from the channel keep their initial map value. -/
theorem findingsMap_not_mem {β : Type} :
    ∀ (chan : List (Nat × Option β)) (m : Nat → Option β) (i : Nat),
      i ∉ chan.map Prod.fst → chan.foldl applyWorkResult m i = m i := by
  intro chan
  induction chan with
  | nil => intro m i _; rfl
  | cons r rest ih =>
    intro m i hi
    simp only [List.map_cons, List.mem_cons] at hi
    push_neg at hi
    rw [List.foldl_cons, ih _ i hi.2]
    rcases r with ⟨k, v⟩
    cases v with
    | some f => simp [applyWorkResult, hi.1]
    | none => rfl

/-- With duplicate-free indices, the map holds exactly the value sent for
an index. -/
theorem findingsMap_lookup {β : Type} :
    ∀ (chan : List (Nat × Option β)) (j : Nat) (v : Option β),
      (chan.map Prod.fst).Nodup → (j, v) ∈ chan → findingsMap chan j = v := by
  have main : ∀ (chan : List (Nat × Option β)) (m : Nat → Option β) (j : Nat) (v : Option β),
      (chan.map Prod.fst).Nodup → (j, v) ∈ chan →
      chan.foldl applyWorkResult m j =
        (match v with | some f => some f | none => m j) := by
    intro chan
    induction chan with
    | nil => intro m j v _ hm; simp at hm
    | cons r rest ih =>
      intro m j v hnd hm
      simp only [List.map_cons, List.nodup_cons] at hnd
      rw [List.foldl_cons]
      rcases List.mem_cons.mp hm with heq | hmem
      · have hr : r = (j, v) := heq.symm
        subst hr
        rw [findingsMap_not_mem rest _ j hnd.1]
        cases v with
        | some f => simp [applyWorkResult]
        | none => rfl
      · have hj : j ≠ r.1 := by
          intro he
          exact hnd.1 (he ▸ (List.mem_map.mpr ⟨(j, v), hmem, rfl⟩))
        rw [ih _ j v hnd.2 hmem]
        cases v with
        | some f => rfl
        | none =>
          rcases r with ⟨k, w⟩
          cases w with
          | some f => simp [applyWorkResult, hj]
          | none => rfl
  intro chan j v hnd hm
  have := main chan (fun _ => none) j v hnd hm
  unfold findingsMap
  rw [this]
  cases v <;> rfl

/-- The rebuilt slice over `range l.length` agrees with a direct
`filterMap` when the lookup agrees pointwise. -/
theorem range_filterMap_get {α β : Type} (f : α → Option β) :
    ∀ (l : List α) (g : Nat → Option β),
      (∀ j (h : j < l.length), g j = f (l.get ⟨j, h⟩)) →
      (List.range l.length).filterMap g = l.filterMap f := by
  intro l
  induction l with
  | nil => intro g _; rfl
  | cons x xs ih =>
    intro g hg
    have h0 : g 0 = f x := hg 0 (by simp)
    have htail : List.filterMap (g ∘ Nat.succ) (List.range xs.length) = xs.filterMap f := by
      apply ih
      intro j h
      exact hg (j + 1) (Nat.succ_lt_succ h)
    rw [List.length_cons, List.range_succ_eq_map, List.filterMap_cons, List.filterMap_cons,
      List.filterMap_map, h0, htail]

/-- Same, for a total `map` rebuild. -/
theorem range_map_get {α β : Type} (f : α → β) :
    ∀ (l : List α) (g : Nat → β),
      (∀ j (h : j < l.length), g j = f (l.get ⟨j, h⟩)) →
      (List.range l.length).map g = l.map f := by
  intro l
  induction l with
  | nil => intro g _; rfl
  | cons x xs ih =>
    intro g hg
    have h0 : g 0 = f x := hg 0 (by simp)
    have htail : List.map (g ∘ Nat.succ) (List.range xs.length) = xs.map f := by
      apply ih
      intro j h
      exact hg (j + 1) (Nat.succ_lt_succ h)
    rw [List.length_cons, List.range_succ_eq_map, List.map_cons, List.map_cons,
      List.map_map, h0, htail]

/-- The channel indices of a permuted output batch are exactly
`0 .. n-1`, each once. -/
theorem chanKeys_of_perm {α γ : Type} (f : α → γ) (l : List α)
    (chan : List (Nat × γ)) (hperm : chan.Perm (indexedOutputs f 0 l)) :
    (chan.map Prod.fst).Perm (List.range l.length) ∧ (chan.map Prod.fst).Nodup := by
  have hp : (chan.map Prod.fst).Perm (List.range l.length) := by
    have := hperm.map Prod.fst
    rwa [indexedOutputs_keys, ← List.range_eq_range'] at this
  exact ⟨hp, hp.symm.nodup (List.nodup_range _)⟩

/-- C2: for any batch and any completion order of the per-item results
(deterministic per item), the rebuilt output is exactly the in-order
subsequence of findings the workers kept; dropped findings are omitted,
not replaced. -/
theorem c2_order_restored {α β : Type} (results : List α) (process : α → Option β)
    (chan : List (Nat × Option β))
    (hperm : chan.Perm (indexedOutputs process 0 results)) :
    enrichedResults results.length chan = results.filterMap process := by
  obtain ⟨_, hnd⟩ := chanKeys_of_perm process results chan hperm
  unfold enrichedResults
  apply range_filterMap_get
  intro j h
  apply findingsMap_lookup chan j _ hnd
  apply hperm.mem_iff.mpr
  simpa using indexedOutputs_mem process results 0 j h

/-- Witness for C2: three findings, the middle one dropped, channel
completion order scrambled. -/
theorem c2_order_restored_witness :
    enrichedResults [10, 25, 30].length
        [(2, some 31), (0, some 11), (1, (none : Option Nat))] =
      [10, 25, 30].filterMap (fun a => if a % 2 = 0 then some (a + 1) else none) :=
  c2_order_restored [10, 25, 30] (fun a => if a % 2 = 0 then some (a + 1) else none)
    [(2, some 31), (0, some 11), (1, none)] (by decide)

/-- Pool slots for indices absent from the channel keep their zero value. -/
theorem poolSlots_not_mem {β ε : Type} (n : Nat) :
    ∀ (chan : List (Nat × β × Option ε)) (acc : (Nat → β) × Option ε) (i : Nat),
      i ∉ chan.map Prod.fst → (chan.foldl (applyPoolResult n) acc).1 i = acc.1 i := by
  intro chan
  induction chan with
  | nil => intro acc i _; rfl
  | cons r rest ih =>
    intro acc i hi
    simp only [List.map_cons, List.mem_cons] at hi
    push_neg at hi
    rw [List.foldl_cons, ih _ i hi.2]
    unfold applyPoolResult
    split
    · simp [hi.1]
    · rfl

/-- With duplicate-free in-range indices, each slot holds the data sent
for its index. -/
theorem poolSlots_mem {β ε : Type} (n : Nat) :
    ∀ (chan : List (Nat × β × Option ε)) (acc : (Nat → β) × Option ε)
      (j : Nat) (d : β) (oe : Option ε),
      (chan.map Prod.fst).Nodup → (j, d, oe) ∈ chan → j < n →
      (chan.foldl (applyPoolResult n) acc).1 j = d := by
  intro chan
  induction chan with
  | nil => intro acc j d oe _ hm _; simp at hm
  | cons r rest ih =>
    intro acc j d oe hnd hm hj
    simp only [List.map_cons, List.nodup_cons] at hnd
    rw [List.foldl_cons]
    rcases List.mem_cons.mp hm with heq | hmem
    · have hr : r = (j, d, oe) := heq.symm
      subst hr
      rw [poolSlots_not_mem n rest _ j hnd.1]
      simp [applyPoolResult, hj]
    · exact ih _ j d oe hnd.2 hmem hj

/-- The remembered error after draining the channel is the first error in
completion order (provided all indices pass the bounds check). -/
theorem poolErr_fold {β ε : Type} (n : Nat) :
    ∀ (chan : List (Nat × β × Option ε)) (acc : (Nat → β) × Option ε),
      (∀ r ∈ chan, r.1 < n) →
      (chan.foldl (applyPoolResult n) acc).2 =
        (match acc.2 with
         | some e => some e
         | none => (chan.filterMap (fun r => r.2.2)).head?) := by
  intro chan
  induction chan with
  | nil =>
    intro acc _
    cases h : acc.2 with
    | some e => simp [h]
    | none => simp [h]
  | cons r rest ih =>
    intro acc hin
    have hr : r.1 < n := hin r (by simp)
    rw [List.foldl_cons, ih _ (fun x hx => hin x (by simp [hx]))]
    have hstep : (applyPoolResult n acc r).2 =
        (match acc.2 with | some e => some e | none => r.2.2) := by
      simp [applyPoolResult, hr]
    rw [hstep, List.filterMap_cons]
    cases hacc : acc.2 with
    | some e => rfl
    | none =>
      cases hre : r.2.2 with
      | some e => rfl
      | none => rfl

/-- The errors sent on the channel, in dispatch order, are the per-item
errors in item order. -/
theorem indexedOutputs_filterMap_err {α β ε : Type} (f : α → β × Option ε) :
    ∀ (l : List α) (i : Nat),
      (indexedOutputs f i l).filterMap (fun r => r.2.2) =
        l.filterMap (fun x => (f x).2) := by
  intro l
  induction l with
  | nil => intro i; rfl
  | cons x xs ih =>
    intro i
    simp only [indexedOutputs, List.filterMap_cons]
    rw [ih (i + 1)]

/-- C4: for any batch processed by the worker pool and any completion
order, the returned error is the first error in completion order, returned
only after the whole channel is drained: the result slice still
materializes every item's output alongside that error, and the error is
`none` exactly when no item erred. -/
theorem c4_first_error_kept {α β ε : Type} (items : List α)
    (process : α → β × Option ε) (default : β) (chan : List (Nat × β × Option ε))
    (hperm : chan.Perm (indexedOutputs process 0 items)) :
    processItemsCollect items.length default chan =
      (items.map (fun x => (process x).1), (chan.filterMap (fun r => r.2.2)).head?) ∧
    ((chan.filterMap (fun r => r.2.2)).head? = none ↔
      ∀ x ∈ items, (process x).2 = none) := by
  obtain ⟨hkeys, hnd⟩ := chanKeys_of_perm process items chan hperm
  have hin : ∀ r ∈ chan, r.1 < items.length := by
    intro r hr
    have : r.1 ∈ chan.map Prod.fst := List.mem_map.mpr ⟨r, hr, rfl⟩
    exact List.mem_range.mp (hkeys.mem_iff.mp this)
  have hslots : (List.range items.length).map
      (chan.foldl (applyPoolResult items.length) ((fun _ => default), none)).1 =
      items.map (fun x => (process x).1) := by
    apply range_map_get
    intro j h
    apply poolSlots_mem items.length chan _ j _ ((process (items.get ⟨j, h⟩)).2) hnd _ h
    apply hperm.mem_iff.mpr
    simpa using indexedOutputs_mem process items 0 j h
  have herr : (chan.foldl (applyPoolResult items.length) ((fun _ => default), none)).2 =
      (chan.filterMap (fun r => r.2.2)).head? := by
    rw [poolErr_fold items.length chan _ hin]
  have hpf : (chan.filterMap (fun r => r.2.2)).Perm
      (items.filterMap (fun x => (process x).2)) := by
    have h1 := hperm.filterMap (fun r => r.2.2)
    rwa [indexedOutputs_filterMap_err] at h1
  constructor
  · simp only [processItemsCollect]
    rw [hslots, herr]
  · rw [List.head?_eq_none_iff]
    constructor
    · intro h
      have hlen := hpf.length_eq
      rw [h] at hlen
      have : items.filterMap (fun x => (process x).2) = [] :=
        List.eq_nil_of_length_eq_zero hlen.symm
      exact List.filterMap_eq_nil_iff.mp this
    · intro h
      have hspec : items.filterMap (fun x => (process x).2) = [] :=
        List.filterMap_eq_nil_iff.mpr h
      have hlen := hpf.length_eq
      rw [hspec] at hlen
      exact List.eq_nil_of_length_eq_zero hlen

/-- Witness for C4: two items, the second fails, completion order
reversed; both results are still materialized and the error is returned. -/
theorem c4_first_error_kept_witness :
    processItemsCollect [5, 7].length 0
        [(1, 14, some 'x'), (0, 10, (none : Option Char))] =
      ([5, 7].map (fun x => (x * 2, if x = 7 then some 'x' else (none : Option Char)).1),
       ([(1, 14, some 'x'), (0, 10, (none : Option Char))].filterMap
         (fun r => r.2.2)).head?) ∧
    (([(1, 14, some 'x'), (0, 10, (none : Option Char))].filterMap
        (fun r => r.2.2)).head? = none ↔
      ∀ x ∈ [5, 7], (x * 2, if x = 7 then some 'x' else (none : Option Char)).2 = none) :=
  c4_first_error_kept [5, 7]
    (fun x => (x * 2, if x = 7 then some 'x' else (none : Option Char))) 0
    [(1, 14, some 'x'), (0, 10, (none : Option Char))] (by decide)

end Slice
